import Mathlib

/-
Verification of the NV-Stats Cinnamon applet (applet.js).

The JavaScript parsing and bookkeeping routines are shallowly embedded on
Lean character lists and explicit state records.  JavaScript strings are
modelled as List Char; JavaScript numbers that the code only ever treats as
integers are modelled as Int (exact arithmetic); a JavaScript value that may
be null is modelled as Option.  The whitespace class used by trim, \s and
parseInt is modelled by its ASCII fragment, which covers every character the
program can meet in nvidia-smi output.
-/

namespace NVStats

/-- Whitespace characters recognized by String.prototype.trim, the regex
class \s and parseInt (ASCII fragment). -/
def isWsChar (c : Char) : Bool :=
  c = ' ' || c = '\t' || c = '\n' || c = '\r' || c = '\x0b' || c = '\x0c'

/-- JavaScript String.prototype.trim on character lists: drop whitespace
from the front, then from the back. -/
def jsTrim (l : List Char) : List Char :=
  ((l.dropWhile isWsChar).reverse.dropWhile isWsChar).reverse

/-- Helper for splitting a character list at every separator character:
returns the piece before the first separator and the remaining pieces. -/
def splitByAux (p : Char → Bool) : List Char → List Char × List (List Char)
  | [] => ([], [])
  | c :: r =>
    if p c then ([], (splitByAux p r).1 :: (splitByAux p r).2)
    else (c :: (splitByAux p r).1, (splitByAux p r).2)

/-- Split a character list at every character satisfying p, keeping empty
pieces, as JavaScript String.prototype.split does with a one-character
separator. -/
def splitBy (p : Char → Bool) (l : List Char) : List (List Char) :=
  (splitByAux p l).1 :: (splitByAux p l).2

def isNlChar (c : Char) : Bool := c = '\n'

/-- stdout.split('\n') -/
def jsLines (l : List Char) : List (List Char) := splitBy isNlChar l

/-- line.split(/\s+/).filter(v => v !== ''): splitting at every whitespace
character and discarding empty pieces yields exactly the pieces that
splitting at maximal whitespace runs yields after the same filter. -/
def wsFields (l : List Char) : List (List Char) :=
  (splitBy isWsChar l).filter (fun w => !w.isEmpty)

/-- line.startsWith('#') -/
def startsWithHash : List Char → Bool
  | [] => false
  | c :: _ => c = '#'

/-- The predicate of the filter in _parseDmonOutput: keep a line when it
does not start with '#' and does not trim to the empty string. -/
def keepLine (l : List Char) : Bool :=
  !startsWithHash l && !(jsTrim l).isEmpty

def digitVal (c : Char) : Nat := c.toNat - '0'.toNat

def isHexDigitChar (c : Char) : Bool :=
  c.isDigit || ('a' ≤ c && c ≤ 'f') || ('A' ≤ c && c ≤ 'F')

def hexDigitVal (c : Char) : Nat :=
  if c.isDigit then digitVal c
  else if 'a' ≤ c && c ≤ 'f' then c.toNat - 'a'.toNat + 10
  else c.toNat - 'A'.toNat + 10

def decDigitsVal (ds : List Char) : Nat :=
  ds.foldl (fun a c => a * 10 + digitVal c) 0

def hexDigitsVal (ds : List Char) : Nat :=
  ds.foldl (fun a c => a * 16 + hexDigitVal c) 0

/-- The unsigned part of radix-free parseInt: a 0x/0X prefix starts a run of
hexadecimal digits, anything else starts a run of decimal digits; no digit
at all is NaN (none). -/
def parseIntNoSign (l : List Char) : Option Nat :=
  match l with
  | '0' :: 'x' :: r =>
    if (r.takeWhile isHexDigitChar).isEmpty then none
    else some (hexDigitsVal (r.takeWhile isHexDigitChar))
  | '0' :: 'X' :: r =>
    if (r.takeWhile isHexDigitChar).isEmpty then none
    else some (hexDigitsVal (r.takeWhile isHexDigitChar))
  | _ =>
    if (l.takeWhile Char.isDigit).isEmpty then none
    else some (decDigitsVal (l.takeWhile Char.isDigit))

/-- JavaScript parseInt(s) with no radix argument: skip leading whitespace,
read an optional sign, then the unsigned part; none models NaN. -/
def parseIntJS (l : List Char) : Option Int :=
  match l.dropWhile isWsChar with
  | '-' :: r => (parseIntNoSign r).map (fun n => -(n : Int))
  | '+' :: r => (parseIntNoSign r).map (fun n => (n : Int))
  | r => (parseIntNoSign r).map (fun n => (n : Int))

/-- The object returned by NvidiaSMI._parseDmonOutput. -/
structure DmonStats where
  gpu : Int
  mem : Int
  temp : Int
deriving DecidableEq

/-- The body of _parseDmonOutput applied to the first kept data line:
split the trimmed line on whitespace, require at least 6 fields, and
parseInt the fields at indices 4 (sm), 5 (mem) and 2 (gtemp). -/
def parseDmonRow (dataLine : List Char) : Option DmonStats :=
  let values := wsFields (jsTrim dataLine)
  if values.length < 6 then none
  else
    match parseIntJS (values.getD 4 []), parseIntJS (values.getD 5 []),
          parseIntJS (values.getD 2 []) with
    | some gpu, some mem, some temp => some ⟨gpu, mem, temp⟩
    | _, _, _ => none

/-- NvidiaSMI._parseDmonOutput (applet.js lines 135-183). -/
def parseDmonOutput (stdout : List Char) : Option DmonStats :=
  if stdout.isEmpty || (jsTrim stdout).isEmpty then none
  else
    match (jsLines stdout).filter keepLine with
    | [] => none
    | dataLine :: _ => parseDmonRow dataLine

/-- trimmed.match(/(\d+)/): the first maximal digit run of the string, if
any. -/
def firstDigitRun (l : List Char) : Option (List Char) :=
  match l.dropWhile (fun c => !c.isDigit) with
  | [] => none
  | c :: r => some (c :: r.takeWhile Char.isDigit)

/-- NvidiaSMI._parseFanSpeed (applet.js lines 192-214). -/
def parseFanSpeed (stdout : List Char) : Option Int :=
  if stdout.isEmpty || (jsTrim stdout).isEmpty then none
  else
    match firstDigitRun (jsTrim stdout) with
    | none => none
    | some run =>
      match parseIntJS run with
      | none => none
      | some fanSpeed =>
        if fanSpeed < 0 || fanSpeed > 100 then none else some fanSpeed

/-- The object returned by NvidiaSMI.getStats. -/
structure GpuStats where
  gpu : Int
  mem : Int
  temp : Int
  fan : Int
deriving DecidableEq

/-- NvidiaSMI._executeDmon: none models a failed command (spawn failure,
nonzero exit code, or a thrown exception); otherwise the captured stdout is
parsed. -/
def executeDmon (stdoutOfCommand : Option (List Char)) : Option DmonStats :=
  stdoutOfCommand.bind parseDmonOutput

/-- NvidiaSMI._executeFanQuery, modelled like _executeDmon. -/
def executeFanQuery (stdoutOfCommand : Option (List Char)) : Option Int :=
  stdoutOfCommand.bind parseFanSpeed

/-- NvidiaSMI.getStats (applet.js lines 50-75): dmon failure aborts with
null; fan failure falls back to fan = 0. -/
def getStats (dmonStdout fanStdout : Option (List Char)) : Option GpuStats :=
  match executeDmon dmonStdout with
  | none => none
  | some d =>
    match executeFanQuery fanStdout with
    | none => some ⟨d.gpu, d.mem, d.temp, 0⟩
    | some f => some ⟨d.gpu, d.mem, d.temp, f⟩

/-- The trimmed kept lines of a report: the lines surviving the filter of
_parseDmonOutput, each trimmed.  The parse result is a function of this
list alone. -/
def keptTrim (s : List Char) : List (List Char) :=
  ((jsLines s).filter keepLine).map jsTrim

/-- Apply a function to the last element of a list. -/
def mapLast (f : List Char → List Char) : List (List Char) → List (List Char)
  | [] => []
  | [x] => [f x]
  | x :: y :: t => x :: mapLast f (y :: t)

/-- Rebuild a report text from its lines, separating them by newlines (the
inverse of split('\n') on newline-free lines). -/
def joinLines : List (List Char) → List Char
  | [] => []
  | [l] => l
  | l :: ls => l ++ '\n' :: joinLines ls

/-- A field that is literally a decimal integer: an optional minus sign
followed by a nonempty run of decimal digits. -/
def isDecIntStr : List Char → Bool
  | '-' :: ds => !ds.isEmpty && ds.all Char.isDigit
  | ds => !ds.isEmpty && ds.all Char.isDigit

/-- The value of a literal decimal integer field. -/
def decIntStrVal : List Char → Int
  | '-' :: ds => -(decDigitsVal ds : Int)
  | ds => (decDigitsVal ds : Int)

/-- The failure condition of the row parser: fewer than 6 whitespace
separated fields, or parseInt yields NaN on one of the fields at
indices 2, 4, 5. -/
def dmonRowFails (l : List Char) : Prop :=
  (wsFields (jsTrim l)).length < 6
    ∨ parseIntJS ((wsFields (jsTrim l)).getD 2 []) = none
    ∨ parseIntJS ((wsFields (jsTrim l)).getD 4 []) = none
    ∨ parseIntJS ((wsFields (jsTrim l)).getD 5 []) = none

/-- The styling settings read by MyApplet.getTemperatureColor.  A field
holds none when the bound property is undefined (settings initialization
failed before the defaults were assigned). -/
structure ColorSettings where
  tempWarningThreshold : Option Int
  tempCriticalThreshold : Option Int
  colorNormal : Option String
  colorWarning : Option String
  colorCritical : Option String
deriving DecidableEq

/-- JavaScript `v || d` for an integer-valued property: undefined, null and
0 are falsy and select the default. -/
def jsOrInt (v : Option Int) (d : Int) : Int :=
  match v with
  | none => d
  | some x => if x = 0 then d else x

/-- JavaScript `v || d` for a string-valued property: undefined, null and
the empty string are falsy and select the default. -/
def jsOrStr (v : Option String) (d : String) : String :=
  match v with
  | none => d
  | some s => if s = "" then d else s

def defaultColorNormal : String := "rgba(74, 222, 128, 1.0)"

def defaultColorWarning : String := "rgba(251, 191, 36, 1.0)"

def defaultColorCritical : String := "rgba(239, 68, 68, 1.0)"

/-- MyApplet.getTemperatureColor (applet.js lines 802-814). -/
def getTemperatureColor (st : ColorSettings) (temp : Int) : String :=
  let warningThreshold := jsOrInt st.tempWarningThreshold 70
  let criticalThreshold := jsOrInt st.tempCriticalThreshold 85
  if temp < warningThreshold then jsOrStr st.colorNormal defaultColorNormal
  else if temp ≥ warningThreshold ∧ temp < criticalThreshold then
    jsOrStr st.colorWarning defaultColorWarning
  else jsOrStr st.colorCritical defaultColorCritical

inductive LayoutMode where
  | singleRow
  | twoRow
deriving DecidableEq

/-- The display-relevant state of MyApplet: the layout, the consecutive
error counter, the panel labels (none when the label widget does not
exist) and the tooltip. -/
structure AppletState where
  layout : LayoutMode
  consecutiveErrors : Nat
  label1 : Option String
  label2 : Option String
  tooltip : String
  refreshInterval : Int
deriving DecidableEq

/-- LayoutManager.formatSingleRow. -/
def formatSingleRow (stats : GpuStats) : String :=
  "GPU: " ++ toString stats.gpu ++ "% | MEM: " ++ toString stats.mem ++
    "% | TEMP: " ++ toString stats.temp ++ "°C | FAN: " ++ toString stats.fan ++ "%"

/-- LayoutManager.formatTwoRow. -/
def formatTwoRow (stats : GpuStats) : String × String :=
  ("GPU: " ++ toString stats.gpu ++ "% MEM: " ++ toString stats.mem ++ "%",
   "TEMP: " ++ toString stats.temp ++ "°C FAN: " ++ toString stats.fan ++ "%")

/-- The error tooltip assembled by MyApplet._handleError. -/
def errorTooltip (reason : String) : String :=
  "NVIDIA GPU Monitor\n\nError: " ++ reason ++ "\n\nCheck that:\n" ++
    "- NVIDIA drivers are installed\n- nvidia-smi command is available\n" ++
    "- You have permission to access GPU"

/-- MyApplet._handleError (applet.js lines 851-880).  Returns the new state
and whether an error line was logged this call. -/
def handleError (reason : String) (st : AppletState) : AppletState × Bool :=
  let c := st.consecutiveErrors + 1
  let logged := c == 1 || c % 10 == 0
  let st1 := { st with consecutiveErrors := c }
  if c = 1 then
    let st2 :=
      match st1.layout with
      | LayoutMode.twoRow =>
        if st1.label1.isSome && st1.label2.isSome then
          { st1 with label1 := some "GPU: -- MEM: --",
                     label2 := some "TEMP: -- FAN: --" }
        else st1
      | LayoutMode.singleRow =>
        if st1.label1.isSome then { st1 with label1 := some "GPU: --" } else st1
    ({ st2 with tooltip := errorTooltip reason }, logged)
  else (st1, logged)

/-- MyApplet._updateDisplay. -/
def updateDisplay (stats : GpuStats) (st : AppletState) : AppletState :=
  match st.layout with
  | LayoutMode.twoRow =>
    if st.label1.isSome && st.label2.isSome then
      { st with label1 := some (formatTwoRow stats).1,
                label2 := some (formatTwoRow stats).2 }
    else st
  | LayoutMode.singleRow =>
    if st.label1.isSome then { st with label1 := some (formatSingleRow stats) }
    else st

/-- MyApplet._updateTooltip. -/
def updateTooltip (stats : GpuStats) (st : AppletState) : AppletState :=
  { st with tooltip :=
      "NVIDIA GPU Monitor\n\nGPU Utilization: " ++ toString stats.gpu ++
        "%\nMemory Usage: " ++ toString stats.mem ++ "%\nTemperature: " ++
        toString stats.temp ++ "°C\nFan Speed: " ++ toString stats.fan ++
        "%\n\nRefresh: " ++ toString st.refreshInterval ++ "s" }

/-- MyApplet._update (applet.js lines 724-748) for one tick.  The input is
the result of getStats; none covers both a null return and a thrown
exception, either of which reaches _handleError.  The Bool records whether
_handleError logged an error line. -/
def appletUpdate (stats : Option GpuStats) (st : AppletState) : AppletState × Bool :=
  match stats with
  | none => handleError "Failed to get GPU stats" st
  | some s =>
    let st1 := { st with consecutiveErrors := 0 }
    (updateTooltip s (updateDisplay s st1), false)

/-- The timer bookkeeping state: the sources registered in the main loop
(source id paired with its interval), the id counter of the main loop, the
applet field _timerId, and the refreshInterval preference.  GLib source
ids are positive, so `if (this._timerId)` tests isSome faithfully. -/
structure TimerState where
  active : List (Nat × Nat)
  nextId : Nat
  timerId : Option Nat
  refreshInterval : Nat
deriving DecidableEq

/-- Mainloop.source_remove. -/
def sourceRemove (id : Nat) (ts : TimerState) : TimerState :=
  { ts with active := ts.active.filter (fun p => p.1 != id) }

/-- Mainloop.timeout_add_seconds: registers a repeating source and returns
its fresh id. -/
def timeoutAddSeconds (interval : Nat) (ts : TimerState) : TimerState × Nat :=
  ({ ts with active := ts.active ++ [(ts.nextId, interval)],
             nextId := ts.nextId + 1 }, ts.nextId)

/-- MyApplet._startTimer (applet.js lines 694-708): cancel the existing
timer if any, then register a new one at the current refreshInterval. -/
def startTimer (ts : TimerState) : TimerState :=
  let ts1 :=
    match ts.timerId with
    | some id => { sourceRemove id ts with timerId := none }
    | none => ts
  let reg := timeoutAddSeconds ts1.refreshInterval ts1
  { reg.1 with timerId := some reg.2 }

/-- MyApplet._stopTimer (applet.js lines 713-719). -/
def stopTimer (ts : TimerState) : TimerState :=
  match ts.timerId with
  | some id => { sourceRemove id ts with timerId := none }
  | none => ts

/-- MyApplet._onRefreshIntervalChanged (applet.js lines 642-653): the
settings binding has already written the new interval; the timer is
restarted only if one is running. -/
def onRefreshIntervalChanged (newInterval : Nat) (ts : TimerState) : TimerState :=
  let ts1 := { ts with refreshInterval := newInterval }
  if ts1.timerId.isSome then startTimer (stopTimer ts1) else ts1

/-- MyApplet._onMenuRefreshChanged (applet.js lines 536-551). -/
def onMenuRefreshChanged (newInterval : Nat) (ts : TimerState) : TimerState :=
  let ts1 := { ts with refreshInterval := newInterval }
  startTimer (stopTimer ts1)

/-- The timer-relevant lifecycle events of the applet. -/
inductive TimerEvent where
  | addedToPanel
  | removedFromPanel
  | refreshIntervalChanged (n : Nat)
  | menuRefreshChanged (n : Nat)

def timerStep (e : TimerEvent) (ts : TimerState) : TimerState :=
  match e with
  | TimerEvent.addedToPanel => startTimer ts
  | TimerEvent.removedFromPanel => stopTimer ts
  | TimerEvent.refreshIntervalChanged n => onRefreshIntervalChanged n ts
  | TimerEvent.menuRefreshChanged n => onMenuRefreshChanged n ts

/-- The state after MyApplet._init: no timer registered, default interval
2 seconds (REFRESH_INTERVAL_DEFAULT). -/
def initTimerState : TimerState := ⟨[], 1, none, 2⟩

/-- The timer states the applet can reach from initialization under its
lifecycle events. -/
inductive ReachableTimer : TimerState → Prop where
  | init : ReachableTimer initTimerState
  | step : ∀ ts e, ReachableTimer ts → ReachableTimer (timerStep e ts)

/-- The coupling invariant between the stored timer id and the main loop:
the stored id names the unique registered source, or there is none. -/
def TimerInv (ts : TimerState) : Prop :=
  match ts.timerId with
  | some id => ∃ iv, ts.active = [(id, iv)]
  | none => ts.active = []

lemma ws_char_cases {c : Char} (h : isWsChar c = true) :
    c = ' ' ∨ c = '\t' ∨ c = '\n' ∨ c = '\r' ∨ c = '\x0b' ∨ c = '\x0c' := by
  have h2 := h
  simp only [isWsChar, Bool.or_eq_true, decide_eq_true_eq] at h2
  tauto

lemma ws_ne_hash {c : Char} (h : isWsChar c = true) : c ≠ '#' := by
  rcases ws_char_cases h with rfl | rfl | rfl | rfl | rfl | rfl <;> decide

lemma ws_not_digit {c : Char} (h : isWsChar c = true) : c.isDigit = false := by
  rcases ws_char_cases h with rfl | rfl | rfl | rfl | rfl | rfl <;> decide

lemma digit_not_ws {c : Char} (h : c.isDigit = true) : isWsChar c = false := by
  cases hw : isWsChar c with
  | false => rfl
  | true => rw [ws_not_digit hw] at h; cases h

lemma digit_ne_minus {c : Char} (h : c.isDigit = true) : c ≠ '-' := by
  intro hc; rw [hc] at h; cases h

lemma digit_ne_plus {c : Char} (h : c.isDigit = true) : c ≠ '+' := by
  intro hc; rw [hc] at h; cases h

lemma digit_ne_x {c : Char} (h : c.isDigit = true) : c ≠ 'x' := by
  intro hc; rw [hc] at h; cases h

lemma digit_ne_X {c : Char} (h : c.isDigit = true) : c ≠ 'X' := by
  intro hc; rw [hc] at h; cases h

lemma takeWhile_of_all {p : Char → Bool} {l : List Char}
    (h : ∀ c ∈ l, p c = true) : l.takeWhile p = l :=
  List.takeWhile_eq_self_iff.2 h

lemma dropWhile_of_all {p : Char → Bool} {l : List Char}
    (h : ∀ c ∈ l, p c = true) : l.dropWhile p = [] :=
  List.dropWhile_eq_nil_iff.2 h

lemma dropWhile_append_ws {p : Char → Bool} {w : List Char}
    (hw : ∀ c ∈ w, p c = true) (l : List Char) :
    (w ++ l).dropWhile p = l.dropWhile p := by
  induction w with
  | nil => rfl
  | cons c w ih =>
    have hc : p c = true := hw c (by simp)
    simp only [List.cons_append, List.dropWhile_cons, hc, if_true]
    exact ih (fun d hd => hw d (by simp [hd]))

lemma dropWhile_append_of_ne_nil {p : Char → Bool} {l : List Char}
    (h : l.dropWhile p ≠ []) (w : List Char) :
    (l ++ w).dropWhile p = l.dropWhile p ++ w := by
  induction l with
  | nil => exact absurd rfl h
  | cons c l ih =>
    by_cases hc : p c = true
    · simp only [List.cons_append, List.dropWhile_cons, hc, if_true]
      simp only [List.dropWhile_cons, hc, if_true] at h
      exact ih h
    · have hc2 : p c = false := by
        cases hpc : p c
        · rfl
        · exact absurd hpc hc
      simp [List.dropWhile_cons, hc2]

lemma head_dropWhile_false {p : Char → Bool} {l r : List Char} {c : Char}
    (h : l.dropWhile p = c :: r) : p c = false := by
  induction l with
  | nil => cases h
  | cons a l ih =>
    rw [List.dropWhile_cons] at h
    by_cases ha : p a = true
    · rw [if_pos ha] at h; exact ih h
    · have ha2 : p a = false := by
        cases hpa : p a
        · rfl
        · exact absurd hpa ha
      rw [if_neg (by simp [ha2])] at h
      cases h
      exact ha2

lemma mem_of_mem_dropWhile {p : Char → Bool} {l : List Char} {c : Char}
    (h : c ∈ l.dropWhile p) : c ∈ l := by
  induction l with
  | nil => cases h
  | cons a l ih =>
    rw [List.dropWhile_cons] at h
    by_cases ha : p a = true
    · rw [if_pos ha] at h
      exact List.mem_cons_of_mem a (ih h)
    · rw [if_neg ha] at h
      exact h

lemma mem_of_mem_takeWhile {p : Char → Bool} {l : List Char} {c : Char}
    (h : c ∈ l.takeWhile p) : c ∈ l := by
  induction l with
  | nil => cases h
  | cons a l ih =>
    rw [List.takeWhile_cons] at h
    by_cases ha : p a = true
    · rw [if_pos ha] at h
      rcases List.mem_cons.1 h with rfl | h2
      · exact List.mem_cons_self c l
      · exact List.mem_cons_of_mem a (ih h2)
    · rw [if_neg ha] at h
      cases h

lemma trim_nil : jsTrim [] = [] := rfl

lemma trim_append_left {w : List Char} (hw : ∀ c ∈ w, isWsChar c = true)
    (l : List Char) : jsTrim (w ++ l) = jsTrim l := by
  unfold jsTrim
  rw [dropWhile_append_ws hw]

lemma trim_eq_nil_of_ws {l : List Char} (h : ∀ c ∈ l, isWsChar c = true) :
    jsTrim l = [] := by
  unfold jsTrim
  rw [dropWhile_of_all h]
  rfl

lemma ws_of_trim_eq_nil {l : List Char} (h : jsTrim l = []) :
    ∀ c ∈ l, isWsChar c = true := by
  unfold jsTrim at h
  rw [List.reverse_eq_nil_iff] at h
  have h2 : ∀ c ∈ (l.dropWhile isWsChar).reverse, isWsChar c = true :=
    List.dropWhile_eq_nil_iff.1 h
  intro c hc
  have hsplit : l.takeWhile isWsChar ++ l.dropWhile isWsChar = l :=
    List.takeWhile_append_dropWhile isWsChar l
  rw [← hsplit] at hc
  rcases List.mem_append.1 hc with h3 | h3
  · exact List.mem_takeWhile_imp h3
  · exact h2 c (List.mem_reverse.2 h3)

lemma trim_append_right {w : List Char} (hw : ∀ c ∈ w, isWsChar c = true)
    (l : List Char) : jsTrim (l ++ w) = jsTrim l := by
  by_cases hm : l.dropWhile isWsChar = []
  · have hl : ∀ c ∈ l, isWsChar c = true := List.dropWhile_eq_nil_iff.1 hm
    have hlw : ∀ c ∈ l ++ w, isWsChar c = true := by
      intro c hc
      rcases List.mem_append.1 hc with h | h
      · exact hl c h
      · exact hw c h
    rw [trim_eq_nil_of_ws hlw, trim_eq_nil_of_ws hl]
  · unfold jsTrim
    rw [dropWhile_append_of_ne_nil hm, List.reverse_append]
    rw [dropWhile_append_ws (fun c hc => hw c (List.mem_reverse.1 hc))]

lemma mem_trim {l : List Char} {c : Char} (h : c ∈ jsTrim l) : c ∈ l := by
  unfold jsTrim at h
  rw [List.mem_reverse] at h
  have h2 := mem_of_mem_dropWhile h
  rw [List.mem_reverse] at h2
  exact mem_of_mem_dropWhile h2

lemma trim_head_not_ws {l r : List Char} {c : Char}
    (h : jsTrim l = c :: r) : isWsChar c = false := by
  have hm : l.dropWhile isWsChar =
      jsTrim l ++ ((l.dropWhile isWsChar).reverse.takeWhile isWsChar).reverse := by
    unfold jsTrim
    rw [← List.reverse_append, List.takeWhile_append_dropWhile isWsChar,
      List.reverse_reverse]
  rw [h] at hm
  exact head_dropWhile_false (l := l) hm

lemma trim_getLast_not_ws {l : List Char} {c : Char}
    (h : (jsTrim l).getLast? = some c) : isWsChar c = false := by
  unfold jsTrim at h
  rw [← List.head?_reverse, List.reverse_reverse] at h
  rcases hd : (l.dropWhile isWsChar).reverse.dropWhile isWsChar with _ | ⟨a, r⟩
  · rw [hd] at h; cases h
  · rw [hd] at h
    cases h
    exact head_dropWhile_false hd

lemma trim_idem (l : List Char) : jsTrim (jsTrim l) = jsTrim l := by
  have h1 : (jsTrim l).dropWhile isWsChar = jsTrim l := by
    rcases ht : jsTrim l with _ | ⟨c, r⟩
    · rfl
    · rw [List.dropWhile_cons, if_neg]
      rw [trim_head_not_ws ht]
      simp
  have h2 : (jsTrim l).reverse.dropWhile isWsChar = (jsTrim l).reverse := by
    rcases ht : (jsTrim l).reverse with _ | ⟨c, r⟩
    · rfl
    · have hl : (jsTrim l).getLast? = some c := by
        rw [← List.head?_reverse, ht]; rfl
      rw [List.dropWhile_cons, if_neg]
      rw [trim_getLast_not_ws hl]
      simp
  show (((jsTrim l).dropWhile isWsChar).reverse.dropWhile isWsChar).reverse = jsTrim l
  rw [h1, h2, List.reverse_reverse]

lemma splitByAux_cons_pos {p : Char → Bool} {c : Char} (h : p c = true) (l : List Char) :
    splitByAux p (c :: l) = ([], (splitByAux p l).1 :: (splitByAux p l).2) := by
  simp [splitByAux, h]

lemma splitByAux_cons_neg {p : Char → Bool} {c : Char} (h : p c = false) (l : List Char) :
    splitByAux p (c :: l) = (c :: (splitByAux p l).1, (splitByAux p l).2) := by
  simp [splitByAux, h]

lemma splitByAux_append_sep {p : Char → Bool} {c : Char} (h : p c = true)
    (a b : List Char) :
    splitByAux p (a ++ c :: b) =
      ((splitByAux p a).1, (splitByAux p a).2 ++ splitBy p b) := by
  induction a with
  | nil =>
    simp only [List.nil_append, splitByAux_cons_pos h]
    rfl
  | cons d a ih =>
    by_cases hd : p d = true
    · simp only [List.cons_append, splitByAux_cons_pos hd, ih]
    · have hd2 : p d = false := by
        cases hpd : p d
        · rfl
        · exact absurd hpd hd
      simp only [List.cons_append, splitByAux_cons_neg hd2, ih]

lemma splitBy_append_sep {p : Char → Bool} {c : Char} (h : p c = true)
    (a b : List Char) : splitBy p (a ++ c :: b) = splitBy p a ++ splitBy p b := by
  unfold splitBy
  rw [splitByAux_append_sep h]
  simp [splitBy]

lemma splitByAux_no_sep {p : Char → Bool} {w : List Char}
    (hw : ∀ c ∈ w, p c = false) (s : List Char) :
    splitByAux p (w ++ s) = (w ++ (splitByAux p s).1, (splitByAux p s).2) := by
  induction w with
  | nil => simp
  | cons c w ih =>
    have hc : p c = false := hw c (by simp)
    simp only [List.cons_append, splitByAux_cons_neg hc]
    rw [ih (fun d hd => hw d (by simp [hd]))]

lemma splitByAux_eq_self {p : Char → Bool} {l : List Char}
    (h : ∀ c ∈ l, p c = false) : splitByAux p l = (l, []) := by
  have h2 := splitByAux_no_sep h []
  simpa [splitByAux] using h2

lemma splitByAux_fst_head {p : Char → Bool} {s r : List Char} {c : Char}
    (h : (splitByAux p s).1 = c :: r) : s.head? = some c := by
  rcases s with _ | ⟨a, s⟩
  · cases h
  · by_cases ha : p a = true
    · rw [splitByAux_cons_pos ha] at h
      cases h
    · have ha2 : p a = false := by
        cases hpa : p a
        · rfl
        · exact absurd hpa ha
      rw [splitByAux_cons_neg ha2] at h
      cases h
      rfl

lemma mem_of_mem_splitByAux {p : Char → Bool} {l : List Char} {c : Char}
    (h : c ∈ (splitByAux p l).1 ∨ ∃ w ∈ (splitByAux p l).2, c ∈ w) : c ∈ l := by
  induction l with
  | nil =>
    rcases h with h | ⟨w, hw, hc⟩
    · cases h
    · cases hw
  | cons a l ih =>
    by_cases ha : p a = true
    · rw [splitByAux_cons_pos ha] at h
      rcases h with h | ⟨w, hw, hc⟩
      · cases h
      · rcases List.mem_cons.1 hw with rfl | hw2
        · exact List.mem_cons_of_mem a (ih (Or.inl hc))
        · exact List.mem_cons_of_mem a (ih (Or.inr ⟨w, hw2, hc⟩))
    · have ha2 : p a = false := by
        cases hpa : p a
        · rfl
        · exact absurd hpa ha
      rw [splitByAux_cons_neg ha2] at h
      rcases h with h | ⟨w, hw, hc⟩
      · rcases List.mem_cons.1 h with rfl | h2
        · exact List.mem_cons_self c l
        · exact List.mem_cons_of_mem a (ih (Or.inl h2))
      · exact List.mem_cons_of_mem a (ih (Or.inr ⟨w, hw, hc⟩))

lemma mem_of_mem_splitBy {p : Char → Bool} {l w : List Char} {c : Char}
    (hw : w ∈ splitBy p l) (hc : c ∈ w) : c ∈ l := by
  unfold splitBy at hw
  rcases List.mem_cons.1 hw with rfl | h2
  · exact mem_of_mem_splitByAux (Or.inl hc)
  · exact mem_of_mem_splitByAux (Or.inr ⟨w, h2, hc⟩)

lemma mapLast_cons_cons (f : List Char → List Char) (x y : List Char)
    (t : List (List Char)) : mapLast f (x :: y :: t) = x :: mapLast f (y :: t) := rfl

lemma splitByAux_append_no_sep {p : Char → Bool} {w : List Char}
    (hw : ∀ c ∈ w, p c = false) (s : List Char) :
    splitByAux p (s ++ w) =
      if (splitByAux p s).2.isEmpty then ((splitByAux p s).1 ++ w, [])
      else ((splitByAux p s).1, mapLast (fun l => l ++ w) (splitByAux p s).2) := by
  induction s with
  | nil =>
    simp only [List.nil_append, splitByAux_eq_self hw]
    rfl
  | cons a s ih =>
    by_cases ha : p a = true
    · rcases h2 : (splitByAux p s).2 with _ | ⟨y, t⟩
      · rw [h2] at ih
        simp only [List.isEmpty_nil, if_true] at ih
        simp only [List.cons_append, splitByAux_cons_pos ha, ih,
          splitByAux_cons_pos ha, h2]
        rfl
      · rw [h2] at ih
        simp only [List.isEmpty_cons, if_neg] at ih
        simp only [List.cons_append, splitByAux_cons_pos ha, ih,
          splitByAux_cons_pos ha, h2]
        rfl
    · have ha2 : p a = false := by
        cases hpa : p a
        · rfl
        · exact absurd hpa ha
      rcases h2 : (splitByAux p s).2 with _ | ⟨y, t⟩
      · rw [h2] at ih
        simp only [List.isEmpty_nil, if_true] at ih
        simp only [List.cons_append, splitByAux_cons_neg ha2, ih,
          splitByAux_cons_neg ha2, h2]
        rfl
      · rw [h2] at ih
        simp only [List.isEmpty_cons, if_neg] at ih
        simp only [List.cons_append, splitByAux_cons_neg ha2, ih,
          splitByAux_cons_neg ha2, h2]
        rfl

lemma jsLines_append_nl (a b : List Char) :
    jsLines (a ++ '\n' :: b) = jsLines a ++ jsLines b :=
  splitBy_append_sep rfl a b

lemma keptTrim_append_nl (a b : List Char) :
    keptTrim (a ++ '\n' :: b) = keptTrim a ++ keptTrim b := by
  unfold keptTrim
  rw [jsLines_append_nl, List.filter_append, List.map_append]

lemma keepLine_false_of_ws {l : List Char} (h : ∀ c ∈ l, isWsChar c = true) :
    keepLine l = false := by
  unfold keepLine
  rw [trim_eq_nil_of_ws h]
  simp

lemma keptTrim_of_ws {w : List Char} (hw : ∀ c ∈ w, isWsChar c = true) :
    keptTrim w = [] := by
  unfold keptTrim
  have hf : (jsLines w).filter keepLine = [] := by
    rw [List.filter_eq_nil_iff]
    intro l hl
    have hws : ∀ c ∈ l, isWsChar c = true := fun c hc => hw c (mem_of_mem_splitBy hl hc)
    simp [keepLine_false_of_ws hws]
  rw [hf]
  rfl

lemma keepLine_append_ws {w : List Char} (hw : ∀ c ∈ w, isWsChar c = true)
    (l : List Char) : keepLine (l ++ w) = keepLine l := by
  rcases l with _ | ⟨a, l⟩
  · rw [List.nil_append, keepLine_false_of_ws hw]
    rfl
  · unfold keepLine
    rw [trim_append_right hw]
    rfl

lemma keptTrim_mapLast_ws {w : List Char} (hw : ∀ c ∈ w, isWsChar c = true) :
    ∀ r : List (List Char),
      ((mapLast (fun l => l ++ w) r).filter keepLine).map jsTrim =
        (r.filter keepLine).map jsTrim := by
  intro r
  induction r with
  | nil => rfl
  | cons x xs ih =>
    rcases xs with _ | ⟨y, t⟩
    · show (([x ++ w].filter keepLine).map jsTrim) = (([x].filter keepLine).map jsTrim)
      rw [List.filter_cons, List.filter_cons, keepLine_append_ws hw]
      by_cases hk : keepLine x = true
      · simp only [hk, if_true, List.map_cons]
        rw [trim_append_right hw]
      · simp only [hk]
        rfl
    · rw [mapLast_cons_cons, List.filter_cons, List.filter_cons]
      by_cases hk : keepLine x = true
      · simp only [hk, if_true, List.map_cons, ih]
      · simp only [hk, Bool.false_eq_true, if_false, ih]

lemma keepLine_ws_prepend {u : List Char} (hu : ∀ c ∈ u, isWsChar c = true)
    {u0 : Char} {u1 f : List Char} (he : u = u0 :: u1)
    (hf : startsWithHash f = false) : keepLine (u ++ f) = keepLine f := by
  subst he
  unfold keepLine
  rw [trim_append_left hu]
  have h0 : startsWithHash ((u0 :: u1) ++ f) = false := by
    show startsWithHash (u0 :: (u1 ++ f)) = false
    unfold startsWithHash
    have := ws_ne_hash (hu u0 (by simp))
    simpa using this
  rw [h0, hf]

lemma keptTrim_prepend_seg {u : List Char} (hu : ∀ c ∈ u, isWsChar c = true)
    (hnl : '\n' ∉ u) (s : List Char) (hcond : u = [] ∨ s.head? ≠ some '#') :
    keptTrim (u ++ s) = keptTrim s := by
  rcases hue : u with _ | ⟨u0, u1⟩
  · rw [List.nil_append]
  · rw [← hue]
    have hhash : s.head? ≠ some '#' := by
      rcases hcond with h | h
      · rw [hue] at h; cases h
      · exact h
    have hno : ∀ c ∈ u, isNlChar c = false := by
      intro c hc
      unfold isNlChar
      have : c ≠ '\n' := fun he => hnl (he ▸ hc)
      simpa using this
    have haux := splitByAux_no_sep hno s
    have hlines : jsLines (u ++ s) =
        (u ++ (splitByAux isNlChar s).1) :: (splitByAux isNlChar s).2 := by
      unfold jsLines splitBy
      rw [haux]
    have hlines2 : jsLines s = (splitByAux isNlChar s).1 :: (splitByAux isNlChar s).2 := rfl
    have hhf : startsWithHash (splitByAux isNlChar s).1 = false := by
      rcases hf : (splitByAux isNlChar s).1 with _ | ⟨d, f1⟩
      · rfl
      · have hd : s.head? = some d := splitByAux_fst_head hf
        unfold startsWithHash
        have : d ≠ '#' := by
          intro he
          rw [he] at hd
          exact hhash hd
        simpa using this
    have hkeep : keepLine (u ++ (splitByAux isNlChar s).1) =
        keepLine (splitByAux isNlChar s).1 := keepLine_ws_prepend hu hue hhf
    unfold keptTrim
    rw [hlines, hlines2, List.filter_cons, List.filter_cons, hkeep]
    by_cases hk : keepLine (splitByAux isNlChar s).1 = true
    · simp only [hk, if_true, List.map_cons, trim_append_left hu]
    · simp only [hk, Bool.false_eq_true, if_false]

lemma mem_of_getLast?_some {u : List Char} {c : Char} (h : u.getLast? = some c) :
    c ∈ u := by
  rw [← List.head?_reverse] at h
  rcases hr : u.reverse with _ | ⟨a, t⟩
  · rw [hr] at h
    cases h
  · rw [hr, List.head?_cons] at h
    cases h
    rw [← List.mem_reverse, hr]
    simp

lemma keptTrim_prepend_ws_aux (s : List Char) :
    ∀ w u : List Char, (∀ c ∈ w, isWsChar c = true) → (∀ c ∈ u, isWsChar c = true) →
      '\n' ∉ u →
      (s.head? ≠ some '#' ∨ u ++ w = [] ∨ (u ++ w).getLast? = some '\n') →
      keptTrim (u ++ w ++ s) = keptTrim s := by
  intro w
  induction w with
  | nil =>
    intro u hw hu hnl hcond
    rw [List.append_nil]
    apply keptTrim_prepend_seg hu hnl
    rcases hcond with h | h | h
    · exact Or.inr h
    · rw [List.append_nil] at h
      exact Or.inl h
    · rw [List.append_nil] at h
      exact absurd (mem_of_getLast?_some h) hnl
  | cons c w ih =>
    intro u hw hu hnl hcond
    by_cases hc : c = '\n'
    · subst hc
      have hassoc : u ++ ('\n' :: w) ++ s = u ++ '\n' :: (w ++ s) := by
        rw [List.append_assoc]
        rfl
      rw [hassoc, keptTrim_append_nl, keptTrim_of_ws hu, List.nil_append]
      have hw2 : ∀ d ∈ w, isWsChar d = true :=
        fun d hd => hw d (List.mem_cons_of_mem _ hd)
      have hcond2 : s.head? ≠ some '#' ∨ [] ++ w = [] ∨ ([] ++ w).getLast? = some '\n' := by
        rcases hcond with h | h | h
        · exact Or.inl h
        · exact absurd h (by simp)
        · by_cases hwnil : w = []
          · exact Or.inr (Or.inl (by simp [hwnil]))
          · refine Or.inr (Or.inr ?_)
            rw [List.nil_append]
            have h1 : (u ++ '\n' :: w).getLast? = ('\n' :: w).getLast? :=
              List.getLast?_append_of_ne_nil u (by simp)
            have h3 : ('\n' :: w).getLast? = w.getLast? := by
              rcases w with _ | ⟨y, t⟩
              · exact absurd rfl hwnil
              · exact List.getLast?_cons_cons
            rw [← h3, ← h1]
            exact h
      have hres := ih [] hw2 (by simp) (by simp) hcond2
      simpa using hres
    · have hassoc : u ++ (c :: w) ++ s = (u ++ [c]) ++ w ++ s := by
        simp
      rw [hassoc]
      apply ih (u ++ [c])
      · exact fun d hd => hw d (List.mem_cons_of_mem _ hd)
      · intro d hd
        rcases List.mem_append.1 hd with h | h
        · exact hu d h
        · rw [List.mem_singleton] at h
          subst h
          exact hw d (by simp)
      · intro hmem
        rcases List.mem_append.1 hmem with h | h
        · exact hnl h
        · rw [List.mem_singleton] at h
          exact hc h.symm
      · have heq : (u ++ [c]) ++ w = u ++ c :: w := by simp
        rw [heq]
        exact hcond

lemma keptTrim_prepend_ws {w : List Char} (hw : ∀ c ∈ w, isWsChar c = true)
    (s : List Char)
    (hcond : s.head? ≠ some '#' ∨ w = [] ∨ w.getLast? = some '\n') :
    keptTrim (w ++ s) = keptTrim s := by
  have h := keptTrim_prepend_ws_aux s w [] hw (by simp) (by simp) (by simpa using hcond)
  simpa using h

lemma keptTrim_append_seg {w : List Char} (hw : ∀ c ∈ w, isWsChar c = true)
    (hnl : '\n' ∉ w) (s : List Char) : keptTrim (s ++ w) = keptTrim s := by
  have hno : ∀ c ∈ w, isNlChar c = false := by
    intro c hc
    unfold isNlChar
    have : c ≠ '\n' := fun he => hnl (he ▸ hc)
    simpa using this
  have haux := splitByAux_append_no_sep hno s
  unfold keptTrim jsLines splitBy
  rw [haux]
  rcases h2 : (splitByAux isNlChar s).2 with _ | ⟨y, t⟩
  · simp only [h2, List.isEmpty_nil, if_true]
    rw [List.filter_cons, List.filter_cons, keepLine_append_ws hw]
    by_cases hk : keepLine (splitByAux isNlChar s).1 = true
    · simp only [hk, if_true, List.map_cons]
      rw [trim_append_right hw]
    · simp only [hk, Bool.false_eq_true, if_false]
  · simp only [h2, List.isEmpty_cons, Bool.false_eq_true, if_false]
    rw [List.filter_cons, List.filter_cons]
    by_cases hk : keepLine (splitByAux isNlChar s).1 = true
    · simp only [hk, if_true, List.map_cons]
      rw [keptTrim_mapLast_ws hw]
    · simp only [hk, Bool.false_eq_true, if_false]
      rw [keptTrim_mapLast_ws hw]

lemma dropWhile_mem_nl {w : List Char} (h : '\n' ∈ w) :
    ∃ v, w.dropWhile (fun c => !isNlChar c) = '\n' :: v := by
  induction w with
  | nil => cases h
  | cons a w ih =>
    by_cases ha : a = '\n'
    · subst ha
      refine ⟨w, ?_⟩
      rw [List.dropWhile_cons]
      simp [isNlChar]
    · rw [List.dropWhile_cons]
      have hpa : (!isNlChar a) = true := by simp [isNlChar, ha]
      simp only [hpa, if_true]
      apply ih
      rcases List.mem_cons.1 h with h2 | h2
      · exact absurd h2.symm ha
      · exact h2

lemma keptTrim_append_ws {w : List Char} (hw : ∀ c ∈ w, isWsChar c = true)
    (s : List Char) : keptTrim (s ++ w) = keptTrim s := by
  by_cases hmem : '\n' ∈ w
  · obtain ⟨v, hv⟩ := dropWhile_mem_nl hmem
    have hsplit : w = w.takeWhile (fun c => !isNlChar c) ++ '\n' :: v := by
      rw [← hv]
      exact (List.takeWhile_append_dropWhile _ _).symm
    have huws : ∀ c ∈ w.takeWhile (fun c => !isNlChar c), isWsChar c = true :=
      fun c hc => hw c (mem_of_mem_takeWhile hc)
    have hunl : '\n' ∉ w.takeWhile (fun c => !isNlChar c) := by
      intro hin
      have := List.mem_takeWhile_imp hin
      simp [isNlChar] at this
    have hvws : ∀ c ∈ v, isWsChar c = true := by
      intro c hc
      apply hw
      rw [hsplit]
      exact List.mem_append.2 (Or.inr (List.mem_cons_of_mem _ hc))
    calc keptTrim (s ++ w)
        = keptTrim ((s ++ w.takeWhile (fun c => !isNlChar c)) ++ '\n' :: v) := by
          rw [List.append_assoc, ← hsplit]
      _ = keptTrim (s ++ w.takeWhile (fun c => !isNlChar c)) ++ keptTrim v :=
          keptTrim_append_nl _ _
      _ = keptTrim (s ++ w.takeWhile (fun c => !isNlChar c)) := by
          rw [keptTrim_of_ws hvws, List.append_nil]
      _ = keptTrim s := keptTrim_append_seg huws hunl s
  · exact keptTrim_append_seg hw hmem s

lemma parseDmon_of_keptTrim_nil {s : List Char} (h : keptTrim s = []) :
    parseDmonOutput s = none := by
  have hf : (jsLines s).filter keepLine = [] := List.map_eq_nil_iff.1 h
  unfold parseDmonOutput
  rcases hc : (s.isEmpty || (jsTrim s).isEmpty) with _ | _
  · simp only [Bool.false_eq_true, if_false]
    rw [hf]
  · simp only [if_true]

lemma parseDmon_of_keptTrim_cons {s v : List Char} {vs : List (List Char)}
    (h : keptTrim s = v :: vs) : parseDmonOutput s = parseDmonRow v := by
  rcases hf : (jsLines s).filter keepLine with _ | ⟨l0, ls⟩
  · unfold keptTrim at h
    rw [hf] at h
    cases h
  · unfold keptTrim at h
    rw [hf, List.map_cons] at h
    injection h with h1 h2
    have hne : (s.isEmpty || (jsTrim s).isEmpty) = false := by
      cases hs : s.isEmpty with
      | true =>
        exfalso
        have hs2 : s = [] := List.isEmpty_iff.1 hs
        rw [hs2] at hf
        simp [jsLines, splitBy, splitByAux, keepLine, jsTrim] at hf
      | false =>
        cases ht : (jsTrim s).isEmpty with
        | true =>
          exfalso
          have ht2 : jsTrim s = [] := List.isEmpty_iff.1 ht
          have hkt : keptTrim s = [] := keptTrim_of_ws (ws_of_trim_eq_nil ht2)
          unfold keptTrim at hkt
          rw [hf] at hkt
          cases hkt
        | false => rfl
    unfold parseDmonOutput
    rw [hne]
    simp only [Bool.false_eq_true, if_false]
    rw [hf, ← h1]
    show parseDmonRow l0 = parseDmonRow (jsTrim l0)
    unfold parseDmonRow
    rw [trim_idem]

lemma parseFan_pad_ws {w : List Char} (hw : ∀ c ∈ w, isWsChar c = true)
    (s : List Char) : parseFanSpeed (w ++ s ++ w) = parseFanSpeed s := by
  have htrim : jsTrim (w ++ s ++ w) = jsTrim s := by
    rw [trim_append_right hw (w ++ s), trim_append_left hw s]
  unfold parseFanSpeed
  rw [htrim]
  by_cases hst : (jsTrim s).isEmpty = true
  · simp [hst]
  · have hst2 : (jsTrim s).isEmpty = false := by
      cases hx : (jsTrim s).isEmpty
      · rfl
      · exact absurd hx hst
    have hs0 : s.isEmpty = false := by
      cases hx : s.isEmpty
      · rfl
      · exfalso
        have : s = [] := List.isEmpty_iff.1 hx
        rw [this] at hst2
        cases hst2
    have hw0 : (w ++ s ++ w).isEmpty = false := by
      cases hx : (w ++ s ++ w).isEmpty
      · rfl
      · exfalso
        have h2 : w ++ s ++ w = [] := List.isEmpty_iff.1 hx
        rcases List.append_eq_nil.1 h2 with ⟨h3, h4⟩
        rcases List.append_eq_nil.1 h3 with ⟨h5, h6⟩
        rw [h6] at hs0
        cases hs0
    rw [hs0, hw0, hst2]

lemma firstDigitRun_digits {l run : List Char} (h : firstDigitRun l = some run) :
    run ≠ [] ∧ ∀ c ∈ run, c.isDigit = true := by
  unfold firstDigitRun at h
  rcases hd : l.dropWhile (fun c => !c.isDigit) with _ | ⟨c, r⟩
  · rw [hd] at h
    cases h
  · rw [hd] at h
    cases h
    constructor
    · simp
    · intro d hdm
      rcases List.mem_cons.1 hdm with rfl | hm
      · have h2 := head_dropWhile_false hd
        simpa using h2
      · exact List.mem_takeWhile_imp hm

lemma firstDigitRun_none {l : List Char} (h : ∀ c ∈ l, c.isDigit = false) :
    firstDigitRun l = none := by
  unfold firstDigitRun
  have h2 : ∀ c ∈ l, (!c.isDigit) = true := by
    intro c hc
    rw [h c hc]
    rfl
  rw [dropWhile_of_all h2]

lemma parseIntNoSign_digits {ds : List Char} (hne : ds ≠ [])
    (hd : ∀ c ∈ ds, c.isDigit = true) : parseIntNoSign ds = some (decDigitsVal ds) := by
  have htake : ds.takeWhile Char.isDigit = ds := takeWhile_of_all hd
  have hemp : ds.isEmpty = false := by
    rcases ds with _ | ⟨d, t⟩
    · exact absurd rfl hne
    · rfl
  unfold parseIntNoSign
  split
  · rename_i r heq
    exfalso
    have hx : 'x'.isDigit = true := hd 'x' (by simp)
    exact absurd hx (by decide)
  · rename_i r heq
    exfalso
    have hx : 'X'.isDigit = true := hd 'X' (by simp)
    exact absurd hx (by decide)
  · rw [htake, hemp]
    rfl

lemma parseIntJS_digits {ds : List Char} (hne : ds ≠ [])
    (hd : ∀ c ∈ ds, c.isDigit = true) :
    parseIntJS ds = some ((decDigitsVal ds : Int)) := by
  have hdrop : ds.dropWhile isWsChar = ds := by
    rcases ds with _ | ⟨d, t⟩
    · exact absurd rfl hne
    · rw [List.dropWhile_cons, digit_not_ws (hd d (by simp))]
      simp
  unfold parseIntJS
  rw [hdrop]
  split
  · rename_i r heq
    exfalso
    have hx : '-'.isDigit = true := hd '-' (by simp)
    exact absurd hx (by decide)
  · rename_i r heq
    exfalso
    have hx : '+'.isDigit = true := hd '+' (by simp)
    exact absurd hx (by decide)
  · rw [parseIntNoSign_digits hne hd]
    rfl

lemma isDecIntStr_minus (t : List Char) :
    isDecIntStr ('-' :: t) = (!t.isEmpty && t.all Char.isDigit) := rfl

lemma isDecIntStr_other {c : Char} (hc : c ≠ '-') (t : List Char) :
    isDecIntStr (c :: t) = (!(c :: t).isEmpty && (c :: t).all Char.isDigit) := by
  unfold isDecIntStr
  split
  · rename_i ds heq
    injection heq with h1 h2
    exact absurd h1 hc
  · rfl

lemma decIntStrVal_minus (t : List Char) :
    decIntStrVal ('-' :: t) = -(decDigitsVal t : Int) := rfl

lemma decIntStrVal_other {c : Char} (hc : c ≠ '-') (t : List Char) :
    decIntStrVal (c :: t) = (decDigitsVal (c :: t) : Int) := by
  unfold decIntStrVal
  split
  · rename_i ds heq
    injection heq with h1 h2
    exact absurd h1 hc
  · rfl

lemma parseIntJS_decInt {v : List Char} (h : isDecIntStr v = true) :
    parseIntJS v = some (decIntStrVal v) := by
  rcases v with _ | ⟨c, t⟩
  · exact absurd h (by decide)
  · by_cases hc : c = '-'
    · subst hc
      rw [isDecIntStr_minus] at h
      obtain ⟨h1, h2⟩ := (Bool.and_eq_true _ _).mp h
      have hne : t ≠ [] := by
        intro ht
        rw [ht] at h1
        simp at h1
      have hall : ∀ d ∈ t, d.isDigit = true := List.all_eq_true.1 h2
      unfold parseIntJS
      have hdrop : ('-' :: t).dropWhile isWsChar = '-' :: t := by
        rw [List.dropWhile_cons]
        simp [isWsChar]
      rw [hdrop]
      show (parseIntNoSign t).map (fun n => -(n : Int)) = some (decIntStrVal ('-' :: t))
      rw [parseIntNoSign_digits hne hall, decIntStrVal_minus]
      rfl
    · rw [isDecIntStr_other hc] at h
      obtain ⟨h1, h2⟩ := (Bool.and_eq_true _ _).mp h
      have hall : ∀ d ∈ (c :: t), d.isDigit = true := List.all_eq_true.1 h2
      rw [decIntStrVal_other hc]
      exact parseIntJS_digits (by simp) hall

lemma joinLines_cons_cons (l y : List Char) (t : List (List Char)) :
    joinLines (l :: y :: t) = l ++ '\n' :: joinLines (y :: t) := rfl

lemma mem_joinLines {parts : List (List Char)} {p : List Char} {c : Char}
    (hp : p ∈ parts) (hc : c ∈ p) : c ∈ joinLines parts := by
  induction parts with
  | nil => cases hp
  | cons x xs ih =>
    rcases xs with _ | ⟨y, t⟩
    · rcases List.mem_cons.1 hp with rfl | h2
      · simpa [joinLines] using hc
      · cases h2
    · rw [joinLines_cons_cons]
      rcases List.mem_cons.1 hp with rfl | h2
      · exact List.mem_append.2 (Or.inl hc)
      · exact List.mem_append.2 (Or.inr (List.mem_cons_of_mem _ (ih h2)))

lemma jsLines_single {x : List Char} (hx : ∀ c ∈ x, isNlChar c = false) :
    jsLines x = [x] := by
  unfold jsLines splitBy
  rw [splitByAux_eq_self hx]

lemma jsLines_joinLines {parts : List (List Char)} (hne : parts ≠ [])
    (hnl : ∀ p ∈ parts, '\n' ∉ p) : jsLines (joinLines parts) = parts := by
  induction parts with
  | nil => exact absurd rfl hne
  | cons x xs ih =>
    have hx : ∀ c ∈ x, isNlChar c = false := by
      intro c hc
      unfold isNlChar
      have hnx : c ≠ '\n' := fun he => hnl x (by simp) (he ▸ hc)
      simpa using hnx
    rcases xs with _ | ⟨y, t⟩
    · have h1 : joinLines [x] = x := rfl
      rw [h1, jsLines_single hx]
    · rw [joinLines_cons_cons, jsLines_append_nl, jsLines_single hx]
      rw [ih (by simp) (fun p hp => hnl p (List.mem_cons_of_mem _ hp))]
      rfl

lemma parseDmonRow_none_iff (l : List Char) :
    parseDmonRow l = none ↔ dmonRowFails l := by
  simp only [parseDmonRow, dmonRowFails]
  by_cases hlen : (wsFields (jsTrim l)).length < 6
  · simp [hlen]
  · rw [if_neg hlen]
    rcases hp4 : parseIntJS ((wsFields (jsTrim l)).getD 4 []) with _ | g
    · simp [hp4, hlen]
    · rcases hp5 : parseIntJS ((wsFields (jsTrim l)).getD 5 []) with _ | m
      · simp [hp5, hlen]
      · rcases hp2 : parseIntJS ((wsFields (jsTrim l)).getD 2 []) with _ | tv
        · simp [hp2, hlen]
        · simp [hp2, hp4, hp5, hlen]

/-- C6 (amended): surrounding the input with whitespace never changes
_parseFanSpeed; it never changes _parseDmonOutput provided the prepended
whitespace cannot swallow a leading '#' header marker, that is, the first
character of s is not '#', or w is empty or ends with a newline. -/
theorem claim_C6 :
    (∀ w s : List Char, (∀ c ∈ w, isWsChar c = true) →
        parseFanSpeed (w ++ s ++ w) = parseFanSpeed s)
  ∧ (∀ w s : List Char, (∀ c ∈ w, isWsChar c = true) →
        (s.head? ≠ some '#' ∨ w = [] ∨ w.getLast? = some '\n') →
        parseDmonOutput (w ++ s ++ w) = parseDmonOutput s) := by
  constructor
  · intro w s hw
    exact parseFan_pad_ws hw s
  · intro w s hw hcond
    have hkt : keptTrim (w ++ s ++ w) = keptTrim s := by
      rw [keptTrim_append_ws hw (w ++ s)]
      exact keptTrim_prepend_ws hw s hcond
    rcases hkt2 : keptTrim s with _ | ⟨v, vs⟩
    · rw [parseDmon_of_keptTrim_nil (by rw [hkt, hkt2]),
        parseDmon_of_keptTrim_nil hkt2]
    · rw [parseDmon_of_keptTrim_cons
        (show keptTrim (w ++ s ++ w) = v :: vs by rw [hkt, hkt2]),
        parseDmon_of_keptTrim_cons hkt2]

/-- Witness for C6 at w = " " (fan) and w = " \n" (dmon, ends in newline,
report starts with a '#' header). -/
theorem claim_C6_witness :
    parseFanSpeed (String.toList " " ++ String.toList "55" ++ String.toList " ")
        = parseFanSpeed (String.toList "55")
  ∧ parseDmonOutput (String.toList " \n" ++ String.toList "#h\n0 1 2 3 4 5"
        ++ String.toList " \n")
      = parseDmonOutput (String.toList "#h\n0 1 2 3 4 5") :=
  ⟨claim_C6.1 (String.toList " ") (String.toList "55") (by decide),
   claim_C6.2 (String.toList " \n") (String.toList "#h\n0 1 2 3 4 5")
     (by decide) (by decide)⟩

/-- C6 counterexample: w = " " is pure whitespace, yet padding the report
"#h\n0 1 2 3 4 5" with it changes the _parseDmonOutput result: the leading
space hides the '#' of the header line, which then counts as the first
data row. -/
theorem claim_C6_counterexample :
    (∀ c ∈ String.toList " ", isWsChar c = true)
  ∧ parseDmonOutput (String.toList " " ++ String.toList "#h\n0 1 2 3 4 5"
        ++ String.toList " ")
      ≠ parseDmonOutput (String.toList "#h\n0 1 2 3 4 5") := by
  exact ⟨by decide, by decide⟩

/-- C4 (amended): _parseDmonOutput returns null exactly when the input is
empty or whitespace-only, or no line survives the header/blank filter, or
the first surviving line has fewer than 6 whitespace-separated fields or
one of its fields at indices 2, 4, 5 is not parsed to an integer by
JavaScript parseInt (which accepts an optional sign and a leading 0x
hexadecimal prefix, and fails only when no digit follows them). -/
theorem claim_C4 (s : List Char) :
    parseDmonOutput s = none ↔
      (s = [] ∨ jsTrim s = [] ∨ (jsLines s).filter keepLine = []
        ∨ ∃ l rest, (jsLines s).filter keepLine = l :: rest ∧ dmonRowFails l) := by
  by_cases hc : (s.isEmpty || (jsTrim s).isEmpty) = true
  · constructor
    · intro _
      have h2 : s.isEmpty = true ∨ (jsTrim s).isEmpty = true := by
        simpa using hc
      rcases h2 with h | h
      · exact Or.inl (List.isEmpty_iff.1 h)
      · exact Or.inr (Or.inl (List.isEmpty_iff.1 h))
    · intro _
      unfold parseDmonOutput
      rw [if_pos hc]
  · constructor
    · intro h
      unfold parseDmonOutput at h
      rw [if_neg hc] at h
      rcases hf : (jsLines s).filter keepLine with _ | ⟨l, rest⟩
      · exact Or.inr (Or.inr (Or.inl rfl))
      · rw [hf] at h
        exact Or.inr (Or.inr (Or.inr ⟨l, rest, rfl, (parseDmonRow_none_iff l).1 h⟩))
    · intro h
      unfold parseDmonOutput
      rw [if_neg hc]
      rcases h with h | h | h | ⟨l, rest, hf, hfail⟩
      · exact absurd (by rw [h]; rfl) hc
      · exact absurd (by rw [h]; simp) hc
      · rw [h]
      · rw [hf]
        exact (parseDmonRow_none_iff l).2 hfail

/-- C4 counterexample: the field at index 2 is "-45", which does not begin
with a digit, yet _parseDmonOutput succeeds, because parseInt accepts a
leading minus sign. -/
theorem claim_C4_counterexample :
    parseDmonOutput (String.toList "0 117 -45 x 13 6") = some ⟨13, 6, -45⟩
  ∧ ((wsFields (jsTrim (String.toList "0 117 -45 x 13 6"))).getD 2 []).head?
      = some '-'
  ∧ ('-').isDigit = false := by
  exact ⟨by decide, by decide, by decide⟩

/-- C1: a dmon report made of '#'-header lines followed by data rows, whose
first data row has at least 6 whitespace-separated fields with decimal
integers at indices 2, 4 and 5, parses to the stats object holding the
integer at index 4 as gpu, the integer at index 5 as mem and the integer
at index 2 as temp. -/
theorem claim_C1 (hs : List (List Char)) (row : List Char)
    (rest : List (List Char))
    (hhead : ∀ h ∈ hs, startsWithHash h = true)
    (hnl1 : ∀ h ∈ hs, '\n' ∉ h) (hnl2 : '\n' ∉ row)
    (hnl3 : ∀ l ∈ rest, '\n' ∉ l)
    (hrow : startsWithHash row = false)
    (hlen : 6 ≤ (wsFields (jsTrim row)).length)
    (h2 : isDecIntStr ((wsFields (jsTrim row)).getD 2 []) = true)
    (h4 : isDecIntStr ((wsFields (jsTrim row)).getD 4 []) = true)
    (h5 : isDecIntStr ((wsFields (jsTrim row)).getD 5 []) = true) :
    parseDmonOutput (joinLines (hs ++ row :: rest)) =
      some ⟨decIntStrVal ((wsFields (jsTrim row)).getD 4 []),
            decIntStrVal ((wsFields (jsTrim row)).getD 5 []),
            decIntStrVal ((wsFields (jsTrim row)).getD 2 [])⟩ := by
  have hparts : (hs ++ row :: rest) ≠ [] := by simp
  have hnlall : ∀ p ∈ hs ++ row :: rest, '\n' ∉ p := by
    intro p hp
    rcases List.mem_append.1 hp with h | h
    · exact hnl1 p h
    · rcases List.mem_cons.1 h with rfl | h3
      · exact hnl2
      · exact hnl3 p h3
  have hlines := jsLines_joinLines hparts hnlall
  have htrow : jsTrim row ≠ [] := by
    intro ht
    have hfe : wsFields (jsTrim row) = [] := by
      rw [ht]
      rfl
    rw [hfe] at hlen
    simp at hlen
  obtain ⟨c0, r0, hcr⟩ : ∃ c0 r0, jsTrim row = c0 :: r0 := by
    rcases hx : jsTrim row with _ | ⟨a, b⟩
    · exact absurd hx htrow
    · exact ⟨a, b, rfl⟩
  have hc0row : c0 ∈ row := mem_trim (by rw [hcr]; simp)
  have hc0ws : isWsChar c0 = false := trim_head_not_ws hcr
  have hrowmem : row ∈ hs ++ row :: rest :=
    List.mem_append.2 (Or.inr (List.mem_cons_self row rest))
  have hjoin_ne : joinLines (hs ++ row :: rest) ≠ [] := by
    intro hj
    have hm := mem_joinLines hrowmem hc0row
    rw [hj] at hm
    cases hm
  have hjtrim_ne : jsTrim (joinLines (hs ++ row :: rest)) ≠ [] := by
    intro hj
    have hwsall := ws_of_trim_eq_nil hj
    have hws := hwsall c0 (mem_joinLines hrowmem hc0row)
    rw [hc0ws] at hws
    cases hws
  have e1 : (joinLines (hs ++ row :: rest)).isEmpty = false := by
    cases hx : (joinLines (hs ++ row :: rest)).isEmpty
    · rfl
    · exact absurd (List.isEmpty_iff.1 hx) hjoin_ne
  have e2 : (jsTrim (joinLines (hs ++ row :: rest))).isEmpty = false := by
    cases hx : (jsTrim (joinLines (hs ++ row :: rest))).isEmpty
    · rfl
    · exact absurd (List.isEmpty_iff.1 hx) hjtrim_ne
  have hkeeprow : keepLine row = true := by
    unfold keepLine
    rw [hrow]
    have hx : (jsTrim row).isEmpty = false := by
      cases hy : (jsTrim row).isEmpty
      · rfl
      · exact absurd (List.isEmpty_iff.1 hy) htrow
    rw [hx]
    rfl
  have hfh : hs.filter keepLine = [] := by
    rw [List.filter_eq_nil_iff]
    intro h hh
    unfold keepLine
    rw [hhead h hh]
    simp
  have hfilter : (jsLines (joinLines (hs ++ row :: rest))).filter keepLine
      = row :: rest.filter keepLine := by
    rw [hlines, List.filter_append, hfh, List.nil_append, List.filter_cons,
      hkeeprow]
    rfl
  unfold parseDmonOutput
  rw [e1, e2]
  simp only [Bool.or_self, Bool.false_eq_true, if_false]
  rw [hfilter]
  show parseDmonRow row = _
  simp only [parseDmonRow]
  rw [if_neg (by omega)]
  rw [parseIntJS_decInt h4, parseIntJS_decInt h5, parseIntJS_decInt h2]

/-- Witness for C1: the two header lines and the data row of the repository
test fixture. -/
theorem claim_C1_witness :
    parseDmonOutput (joinLines
      [String.toList "#h1", String.toList "#h2",
       String.toList "    0    117     45      -     13      6  "]) =
      some ⟨13, 6, 45⟩ := by
  have h := claim_C1 [String.toList "#h1", String.toList "#h2"]
    (String.toList "    0    117     45      -     13      6  ") []
    (by decide) (by decide) (by decide) (by decide) (by decide) (by decide)
    (by decide) (by decide) (by decide)
  exact h.trans (by decide)

/-- C3: _parseFanSpeed "55" is 55; text containing no digit parses to null;
and when the value of the first digit run of the trimmed input is above 100
or (vacuously, the run being unsigned) below 0, the parse is null. -/
theorem claim_C3 :
    parseFanSpeed (String.toList "55") = some 55
  ∧ (∀ s : List Char, (∀ c ∈ s, c.isDigit = false) → parseFanSpeed s = none)
  ∧ (∀ s run : List Char, firstDigitRun (jsTrim s) = some run →
      ((decDigitsVal run : Int) < 0 ∨ (decDigitsVal run : Int) > 100) →
      parseFanSpeed s = none) := by
  refine ⟨by decide, ?_, ?_⟩
  · intro s hs
    unfold parseFanSpeed
    by_cases hc : (s.isEmpty || (jsTrim s).isEmpty) = true
    · rw [if_pos hc]
    · rw [if_neg hc]
      have hnone : firstDigitRun (jsTrim s) = none :=
        firstDigitRun_none (fun c hc2 => hs c (mem_trim hc2))
      rw [hnone]
  · intro s run hrun hval
    unfold parseFanSpeed
    by_cases hc : (s.isEmpty || (jsTrim s).isEmpty) = true
    · rw [if_pos hc]
    · rw [if_neg hc, hrun]
      dsimp only
      obtain ⟨hne, hall⟩ := firstDigitRun_digits hrun
      rw [parseIntJS_digits hne hall]
      have h100 : (decDigitsVal run : Int) > 100 := by
        rcases hval with h | h
        · exact absurd h (not_lt.2 (Int.natCast_nonneg _))
        · exact h
      simp [h100]

/-- Witness for C3 at the out-of-range input "150" and the non-numeric
input "abc". -/
theorem claim_C3_witness :
    parseFanSpeed (String.toList "150") = none
  ∧ parseFanSpeed (String.toList "abc") = none :=
  ⟨claim_C3.2.2 (String.toList "150") (String.toList "150") (by decide)
      (Or.inr (by decide)),
   claim_C3.2.1 (String.toList "abc") (by decide)⟩

/-- C9: _parseFanSpeed extracts the first maximal digit run anywhere in the
trimmed input, so "abc55" and "55.9" parse to 55, and in general any input
whose first digit run has value at most 100 parses to that value. -/
theorem claim_C9 :
    parseFanSpeed (String.toList "abc55") = some 55
  ∧ parseFanSpeed (String.toList "55.9") = some 55
  ∧ (∀ s run : List Char, firstDigitRun (jsTrim s) = some run →
      (decDigitsVal run : Int) ≤ 100 →
      parseFanSpeed s = some ((decDigitsVal run : Int))) := by
  refine ⟨by decide, by decide, ?_⟩
  intro s run hrun hle
  have htne : jsTrim s ≠ [] := by
    intro ht
    rw [ht] at hrun
    simp [firstDigitRun] at hrun
  have hsne : s ≠ [] := by
    intro hsnil
    rw [hsnil] at htne
    exact htne rfl
  have b1 : s.isEmpty = false := by
    cases hx : s.isEmpty
    · rfl
    · exact absurd (List.isEmpty_iff.1 hx) hsne
  have b2 : (jsTrim s).isEmpty = false := by
    cases hx : (jsTrim s).isEmpty
    · rfl
    · exact absurd (List.isEmpty_iff.1 hx) htne
  unfold parseFanSpeed
  rw [b1, b2]
  simp only [Bool.or_self, Bool.false_eq_true, if_false]
  rw [hrun]
  dsimp only
  obtain ⟨hne, hall⟩ := firstDigitRun_digits hrun
  rw [parseIntJS_digits hne hall]
  have hlt : ¬ ((decDigitsVal run : Int) < 0) := not_lt.2 (Int.natCast_nonneg _)
  have hng : ¬ ((decDigitsVal run : Int) > 100) := not_lt.2 hle
  simp [hlt, hng]

/-- Witness for C9 at the input "x42", which is not a bare integer. -/
theorem claim_C9_witness : parseFanSpeed (String.toList "x42") = some 42 :=
  (claim_C9.2.2 (String.toList "x42") (String.toList "42") (by decide)
    (by decide)).trans (by decide)

/-- C10: every number _parseFanSpeed returns lies in 0..100, and the value
parseInt extracts from the matched digit run is never negative, so the
fanSpeed < 0 rejection branch is unreachable. -/
theorem claim_C10 :
    (∀ (s : List Char) (n : Int), parseFanSpeed s = some n → 0 ≤ n ∧ n ≤ 100)
  ∧ (∀ s run : List Char, firstDigitRun (jsTrim s) = some run →
      ∃ v : Int, parseIntJS run = some v ∧ 0 ≤ v) := by
  constructor
  · intro s n h
    unfold parseFanSpeed at h
    by_cases hc : (s.isEmpty || (jsTrim s).isEmpty) = true
    · rw [if_pos hc] at h
      cases h
    · rw [if_neg hc] at h
      rcases hrun : firstDigitRun (jsTrim s) with _ | run
      · rw [hrun] at h
        cases h
      · rw [hrun] at h
        dsimp only at h
        rcases hint : parseIntJS run with _ | v
        · rw [hint] at h
          cases h
        · rw [hint] at h
          dsimp only at h
          split at h
          · cases h
          · rename_i hcond
            injection h with h2
            subst h2
            simp only [Bool.or_eq_true, decide_eq_true_eq, not_or, not_lt]
              at hcond
            exact ⟨hcond.1, hcond.2⟩
  · intro s run hrun
    obtain ⟨hne, hall⟩ := firstDigitRun_digits hrun
    exact ⟨(decDigitsVal run : Int), parseIntJS_digits hne hall,
      Int.natCast_nonneg _⟩

/-- Witness for C10 at the input "55". -/
theorem claim_C10_witness :
    ((0 : Int) ≤ 55 ∧ (55 : Int) ≤ 100)
  ∧ ∃ v : Int, parseIntJS (String.toList "55") = some v ∧ 0 ≤ v :=
  ⟨claim_C10.1 (String.toList "55") 55 (by decide),
   claim_C10.2 (String.toList "55") (String.toList "55") (by decide)⟩

/-- C8: when the dmon side succeeds, getStats never reports failure: a
failed fan query or fan parse is replaced by fan = 0; and getStats returns
null exactly when the dmon query or parse fails. -/
theorem claim_C8 :
    (∀ (dmonOut fanOut : Option (List Char)) (d : DmonStats),
        executeDmon dmonOut = some d → executeFanQuery fanOut = none →
        getStats dmonOut fanOut = some ⟨d.gpu, d.mem, d.temp, 0⟩)
  ∧ (∀ dmonOut fanOut : Option (List Char),
        getStats dmonOut fanOut = none ↔ executeDmon dmonOut = none) := by
  constructor
  · intro dmonOut fanOut d hd hf
    unfold getStats
    rw [hd, hf]
  · intro dmonOut fanOut
    unfold getStats
    rcases hd : executeDmon dmonOut with _ | d
    · simp
    · rcases hf : executeFanQuery fanOut with _ | f <;> simp

/-- Witness for C8: a good dmon report with an unparsable fan query yields
the dmon stats with fan 0, not a failure. -/
theorem claim_C8_witness :
    getStats (some (String.toList "#h\n0 1 45 - 13 6"))
        (some (String.toList "abc")) = some ⟨13, 6, 45, 0⟩ :=
  claim_C8.1 (some (String.toList "#h\n0 1 45 - 13 6"))
    (some (String.toList "abc")) ⟨13, 6, 45⟩ (by decide) (by decide)

/-- C2 (amended): with the thresholds and colors taken at their effective
values (the configured value unless it is unset or JavaScript-falsy, in
which case the default 70/85 or default color applies), and provided the
effective warning threshold does not exceed the effective critical one,
getTemperatureColor maps a temperature below warning to the normal color,
at/above warning and below critical to the warning color, and at/above
critical to the critical color. -/
theorem claim_C2 (st : ColorSettings) (temp : Int)
    (hord : jsOrInt st.tempWarningThreshold 70 ≤
      jsOrInt st.tempCriticalThreshold 85) :
    (temp < jsOrInt st.tempWarningThreshold 70 →
      getTemperatureColor st temp = jsOrStr st.colorNormal defaultColorNormal)
  ∧ (jsOrInt st.tempWarningThreshold 70 ≤ temp ∧
        temp < jsOrInt st.tempCriticalThreshold 85 →
      getTemperatureColor st temp = jsOrStr st.colorWarning defaultColorWarning)
  ∧ (jsOrInt st.tempCriticalThreshold 85 ≤ temp →
      getTemperatureColor st temp = jsOrStr st.colorCritical defaultColorCritical) := by
  refine ⟨?_, ?_, ?_⟩
  · intro h
    simp only [getTemperatureColor]
    rw [if_pos h]
  · intro h
    obtain ⟨h1, h2⟩ := h
    simp only [getTemperatureColor]
    rw [if_neg (not_lt.2 h1), if_pos ⟨h1, h2⟩]
  · intro h
    simp only [getTemperatureColor]
    rw [if_neg (not_lt.2 (le_trans hord h)), if_neg]
    intro hcon
    exact absurd hcon.2 (not_lt.2 h)

/-- Witness for C2 at warning 60, critical 80, temperature 70 (warning
band). -/
theorem claim_C2_witness :
    getTemperatureColor ⟨some 60, some 80, none, none, none⟩ 70
      = jsOrStr none defaultColorWarning :=
  (claim_C2 ⟨some 60, some 80, none, none, none⟩ 70 (by decide)).2.1
    ⟨by decide, by decide⟩

/-- C2 counterexample: with warning 90 and critical 60, both inside the
settings spinner ranges, and temperature 75, the temperature is at or above
the critical threshold, yet getTemperatureColor returns the normal color
rather than the critical color. -/
theorem claim_C2_counterexample :
    (60 : Int) ≤ 75
  ∧ jsOrInt (some 60) 85 = 60
  ∧ getTemperatureColor ⟨some 90, some 60, none, none, none⟩ 75
      = jsOrStr none defaultColorNormal
  ∧ jsOrStr none defaultColorNormal ≠ jsOrStr none defaultColorCritical := by
  refine ⟨by decide, by decide, by decide, by decide⟩

/-- C5: on a failed tick (null stats or a caught exception) _handleError
increments the consecutive-error counter; it logs exactly when the new
counter is 1 or a multiple of 10; on the first consecutive failure the
existing labels are set to the placeholder dashes; and a successful tick
resets the counter to 0. -/
theorem claim_C5 (st : AppletState) :
    ((appletUpdate none st).1.consecutiveErrors = st.consecutiveErrors + 1)
  ∧ ((appletUpdate none st).2 = true ↔
      (st.consecutiveErrors + 1 = 1 ∨ (st.consecutiveErrors + 1) % 10 = 0))
  ∧ (st.consecutiveErrors = 0 → st.layout = LayoutMode.singleRow →
      st.label1.isSome = true →
      (appletUpdate none st).1.label1 = some "GPU: --")
  ∧ (st.consecutiveErrors = 0 → st.layout = LayoutMode.twoRow →
      st.label1.isSome = true → st.label2.isSome = true →
      (appletUpdate none st).1.label1 = some "GPU: -- MEM: --" ∧
      (appletUpdate none st).1.label2 = some "TEMP: -- FAN: --")
  ∧ (∀ stats : GpuStats,
      (appletUpdate (some stats) st).1.consecutiveErrors = 0) := by
  obtain ⟨layout, ce, l1, l2, tt, ri⟩ := st
  refine ⟨?_, ?_, ?_, ?_, ?_⟩
  · by_cases h1 : ce + 1 = 1
    · cases layout <;> cases l1 <;> cases l2 <;>
        simp [appletUpdate, handleError, h1]
    · simp [appletUpdate, handleError, h1]
  · by_cases h1 : ce + 1 = 1
    · cases layout <;> cases l1 <;> cases l2 <;>
        simp [appletUpdate, handleError, h1]
    · simp [appletUpdate, handleError, h1]
      omega
  · intro hce hlay hl1
    subst hce
    subst hlay
    rcases l1 with _ | v1
    · cases hl1
    · cases l2 <;> simp [appletUpdate, handleError]
  · intro hce hlay hl1 hl2
    subst hce
    subst hlay
    rcases l1 with _ | v1
    · cases hl1
    · rcases l2 with _ | v2
      · cases hl2
      · simp [appletUpdate, handleError]
  · intro stats
    cases layout <;> cases l1 <;> cases l2 <;>
      simp [appletUpdate, updateDisplay, updateTooltip]

/-- Witness for C5 at a single-row state with a label and counter 0. -/
theorem claim_C5_witness :
    (appletUpdate none
        ⟨LayoutMode.singleRow, 0, some "GPU: 3%", none, "tip", 2⟩).1.label1
      = some "GPU: --"
  ∧ (appletUpdate none
        ⟨LayoutMode.singleRow, 0, some "GPU: 3%", none, "tip", 2⟩).1.consecutiveErrors
      = 1 :=
  ⟨(claim_C5 ⟨LayoutMode.singleRow, 0, some "GPU: 3%", none, "tip", 2⟩).2.2.1
      rfl rfl rfl,
   (claim_C5 ⟨LayoutMode.singleRow, 0, some "GPU: 3%", none, "tip", 2⟩).1⟩

lemma timerInv_init : TimerInv initTimerState := rfl

lemma stopTimer_spec {ts : TimerState} (h : TimerInv ts) :
    (stopTimer ts).timerId = none ∧ (stopTimer ts).active = []
    ∧ (stopTimer ts).refreshInterval = ts.refreshInterval
    ∧ (stopTimer ts).nextId = ts.nextId := by
  unfold TimerInv at h
  unfold stopTimer
  rcases hid : ts.timerId with _ | id
  · rw [hid] at h
    exact ⟨hid, h, rfl, rfl⟩
  · rw [hid] at h
    obtain ⟨iv, hact⟩ := h
    refine ⟨rfl, ?_, rfl, rfl⟩
    show (ts.active.filter (fun p => p.1 != id)) = []
    rw [hact]
    simp

lemma timerInv_of_components {ts : TimerState} (h1 : ts.timerId = none)
    (h2 : ts.active = []) : TimerInv ts := by
  unfold TimerInv
  rw [h1]
  exact h2

lemma startTimer_spec {ts : TimerState} (h : TimerInv ts) :
    ∃ id, (startTimer ts).timerId = some id
      ∧ (startTimer ts).active = [(id, ts.refreshInterval)]
      ∧ (startTimer ts).refreshInterval = ts.refreshInterval := by
  unfold TimerInv at h
  unfold startTimer timeoutAddSeconds
  rcases hid : ts.timerId with _ | id0
  · rw [hid] at h
    refine ⟨ts.nextId, rfl, ?_, rfl⟩
    show ts.active ++ [(ts.nextId, ts.refreshInterval)]
      = [(ts.nextId, ts.refreshInterval)]
    rw [h]
    rfl
  · rw [hid] at h
    obtain ⟨iv, hact⟩ := h
    refine ⟨ts.nextId, rfl, ?_, rfl⟩
    show (ts.active.filter (fun p => p.1 != id0))
        ++ [(ts.nextId, ts.refreshInterval)]
      = [(ts.nextId, ts.refreshInterval)]
    rw [hact]
    simp

lemma timerInv_startTimer {ts : TimerState} (h : TimerInv ts) :
    TimerInv (startTimer ts) := by
  obtain ⟨id, h1, h2, _⟩ := startTimer_spec h
  unfold TimerInv
  rw [h1]
  exact ⟨ts.refreshInterval, h2⟩

lemma timerInv_refresh_pref {ts : TimerState} (h : TimerInv ts) (n : Nat) :
    TimerInv { ts with refreshInterval := n } := by
  unfold TimerInv at h ⊢
  rcases hid : ts.timerId with _ | id
  · rw [hid] at h
    show ({ ts with refreshInterval := n }).active = []
    exact h
  · rw [hid] at h
    exact h

lemma timerInv_step {ts : TimerState} (h : TimerInv ts) (e : TimerEvent) :
    TimerInv (timerStep e ts) := by
  cases e with
  | addedToPanel => exact timerInv_startTimer h
  | removedFromPanel =>
    obtain ⟨h1, h2, _, _⟩ := stopTimer_spec h
    exact timerInv_of_components h1 h2
  | refreshIntervalChanged n =>
    show TimerInv (onRefreshIntervalChanged n ts)
    unfold onRefreshIntervalChanged
    have hinv1 : TimerInv { ts with refreshInterval := n } :=
      timerInv_refresh_pref h n
    by_cases hsome : ({ ts with refreshInterval := n }).timerId.isSome = true
    · rw [if_pos hsome]
      obtain ⟨h1, h2, _, _⟩ := stopTimer_spec hinv1
      exact timerInv_startTimer (timerInv_of_components h1 h2)
    · rw [if_neg hsome]
      exact hinv1
  | menuRefreshChanged n =>
    show TimerInv (onMenuRefreshChanged n ts)
    unfold onMenuRefreshChanged
    have hinv1 : TimerInv { ts with refreshInterval := n } :=
      timerInv_refresh_pref h n
    obtain ⟨h1, h2, _, _⟩ := stopTimer_spec hinv1
    exact timerInv_startTimer (timerInv_of_components h1 h2)

/-- C7: in every reachable state of the timer bookkeeping at most one
repeating source is registered; _stopTimer deregisters it and clears the
stored id; a refresh-interval preference change with a running timer
replaces it by a single new timer at the new interval; and the context-menu
interval change does the same unconditionally. -/
theorem claim_C7 (ts : TimerState) (hr : ReachableTimer ts) :
    ts.active.length ≤ 1
  ∧ ((stopTimer ts).timerId = none ∧ (stopTimer ts).active = [])
  ∧ (∀ n, ts.timerId.isSome = true →
      ∃ id, (onRefreshIntervalChanged n ts).timerId = some id
        ∧ (onRefreshIntervalChanged n ts).active = [(id, n)])
  ∧ (∀ n, ∃ id, (onMenuRefreshChanged n ts).timerId = some id
        ∧ (onMenuRefreshChanged n ts).active = [(id, n)]) := by
  have hinv : TimerInv ts := by
    induction hr with
    | init => exact timerInv_init
    | step ts2 e h2 ih => exact timerInv_step ih e
  refine ⟨?_, ?_, ?_, ?_⟩
  · unfold TimerInv at hinv
    rcases hid : ts.timerId with _ | id
    · rw [hid] at hinv
      rw [hinv]
      simp
    · rw [hid] at hinv
      obtain ⟨iv, hact⟩ := hinv
      rw [hact]
      simp
  · obtain ⟨h1, h2, _, _⟩ := stopTimer_spec hinv
    exact ⟨h1, h2⟩
  · intro n hsome
    unfold onRefreshIntervalChanged
    have hinv1 : TimerInv { ts with refreshInterval := n } :=
      timerInv_refresh_pref hinv n
    have hsome2 : ({ ts with refreshInterval := n }).timerId.isSome = true :=
      hsome
    rw [if_pos hsome2]
    obtain ⟨h1, h2, h3, _⟩ := stopTimer_spec hinv1
    obtain ⟨id, g1, g2, _⟩ := startTimer_spec (timerInv_of_components h1 h2)
    refine ⟨id, g1, ?_⟩
    rw [g2, h3]
  · intro n
    unfold onMenuRefreshChanged
    have hinv1 : TimerInv { ts with refreshInterval := n } :=
      timerInv_refresh_pref hinv n
    obtain ⟨h1, h2, h3, _⟩ := stopTimer_spec hinv1
    obtain ⟨id, g1, g2, _⟩ := startTimer_spec (timerInv_of_components h1 h2)
    refine ⟨id, g1, ?_⟩
    rw [g2, h3]

/-- Witness for C7 at the state reached from initialization by a
context-menu interval change to 5 seconds. -/
theorem claim_C7_witness :
    (timerStep (TimerEvent.menuRefreshChanged 5) initTimerState).active.length ≤ 1 :=
  (claim_C7 (timerStep (TimerEvent.menuRefreshChanged 5) initTimerState)
    (ReachableTimer.step initTimerState (TimerEvent.menuRefreshChanged 5)
      ReachableTimer.init)).1

end NVStats
